import Mathlib

/-!
Verification of the date-dimension generator (`datedim_with_holidays`).

The development shallowly embeds `src/datedim_generate/generate.py`:
the `Holidays` registry, argument processing (`Arguments.__process_arguments`),
the row generator (`DateDimensionGenerator.generate`) and the table sink
(`DataFrame.output`).  External collaborators (the `holidays` package,
`polars` date arithmetic, `datetime.strptime`) are modelled explicitly
where the spec treats them as opaque providers; each such definition says
so in its doc comment.  The legacy top-level script `src/generate.py` is
modelled in the `Legacy` namespace where its behaviour differs.

Dates are proleptic Gregorian; `rataDie` numbers days from 1 at
0001-01-01 (a Monday), which is the standard Rata Die convention and the
day-number model underlying both `datetime.date` and `polars` dates.
-/

/-- A calendar date, as Python's `datetime.date` (year, month, day). -/
structure Date where
  year : Nat
  month : Nat
  day : Nat
deriving DecidableEq, Repr

/-- Gregorian leap-year test (as implemented by `calendar`/`datetime`). -/
def isLeapYear (y : Nat) : Bool :=
  (y % 4 == 0 && y % 100 != 0) || y % 400 == 0

/-- Number of days in month `m` of year `y` (`calendar.monthrange(y, m)[1]`). -/
def daysInMonth (y m : Nat) : Nat :=
  if m = 2 then (if isLeapYear y then 29 else 28)
  else if m = 4 ∨ m = 6 ∨ m = 9 ∨ m = 11 then 30
  else 31

/-- Number of days in year `y`. -/
def daysInYear (y : Nat) : Nat :=
  if isLeapYear y then 366 else 365

/-- Days of year `y` that lie strictly before month `m` (months 1..m-1). -/
def daysBeforeMonth (y : Nat) : Nat → Nat
  | 0 => 0
  | m + 1 => daysBeforeMonth y m + if m = 0 then 0 else daysInMonth y m

/-- Total days in years 1..y (days strictly before year `y+1`). -/
def daysThroughYear : Nat → Nat
  | 0 => 0
  | y + 1 => daysThroughYear y + daysInYear (y + 1)

/-- Rata Die day number: 0001-01-01 is day 1.  This is the linear day
numbering under `datetime.date.toordinal` and `polars` date arithmetic. -/
def rataDie (d : Date) : Nat :=
  daysThroughYear (d.year - 1) + daysBeforeMonth d.year d.month + d.day

/-- Validity of a date: what `datetime.date(y, m, d)` accepts (with the
year bounded by 9999 in CPython; the bound is irrelevant here and omitted). -/
def Date.Valid (d : Date) : Prop :=
  1 ≤ d.year ∧ 1 ≤ d.month ∧ d.month ≤ 12 ∧ 1 ≤ d.day ∧ d.day ≤ daysInMonth d.year d.month

instance (d : Date) : Decidable d.Valid := by
  unfold Date.Valid; exact inferInstance

/-- The calendar successor of a date (the next calendar day). -/
def nextDate (d : Date) : Date :=
  if d.day < daysInMonth d.year d.month then ⟨d.year, d.month, d.day + 1⟩
  else if d.month < 12 then ⟨d.year, d.month + 1, 1⟩
  else ⟨d.year + 1, 1, 1⟩

/-- ISO weekday: 1 = Monday .. 7 = Sunday (`polars` `dt.weekday`,
`datetime.isoweekday`).  Rata Die day 1 (0001-01-01) is a Monday. -/
def isoWeekday (d : Date) : Nat :=
  (rataDie d - 1) % 7 + 1

/-- Lexicographic strict order on dates: Python's `date.__gt__`/`__lt__`. -/
def DateLt (a b : Date) : Prop :=
  a.year < b.year ∨ (a.year = b.year ∧
    (a.month < b.month ∨ (a.month = b.month ∧ a.day < b.day)))

instance (a b : Date) : Decidable (DateLt a b) := by
  unfold DateLt; exact inferInstance

/-- Python's `date.__le__`. -/
def DateLe (a b : Date) : Prop := DateLt a b ∨ a = b

instance (a b : Date) : Decidable (DateLe a b) := by
  unfold DateLe; exact inferInstance

/-! ### The Holidays registry (`src/datedim_generate/generate.py`, class `Holidays`)

The `holidays` package is an external collaborator; the spec treats it as
"an opaque provider of: is this date a named holiday in jurisdiction X".
A calendar is therefore a function from dates to an optional holiday name
(`HolidayBase.get` returns the name or `None`), and the provider functions
`holidays.country_holidays` / `holidays.financial_holidays` are abstract
maps from a code to an optional calendar (`none` models the
`NotImplementedError` raised for an unknown code). -/

/-- A holiday calendar: `entry.get(date)` is the holiday name, or `None`. -/
def HolidayCalendar := Date → Option String

/-- The registry.  `holidays` models the Python instance dict
`self.holidays` (`__init__` sets `self.holidays = {}`): an insertion-ordered
map from calendar code to calendar. -/
structure Holidays where
  holidays : List (String × HolidayCalendar)

/-- `Holidays.__init__`: start with no calendars. -/
def Holidays.init : Holidays := ⟨[]⟩

/-- `Holidays.is_empty`. -/
def Holidays.is_empty (hs : Holidays) : Bool :=
  hs.holidays.length == 0

/-- `Holidays.is_holiday`: scan the dict values; return `True` on the first
calendar whose `get` is not `None`, else `False`. -/
def Holidays.is_holiday (hs : Holidays) (provided_date : Date) : Bool :=
  (hs.holidays.map Prod.snd).any fun entry => (entry provided_date).isSome

/-- Value type of the dict built by `Holidays.get_holiday_names`: the
`is_holiday_[CODE]` keys hold booleans, the `holiday_name_[CODE]` keys hold
a holiday name or `None`. -/
inductive HVal where
  | flag (b : Bool)
  | hname (s : Option String)
deriving DecidableEq

/-- Python dict insertion (`d[k] = v`): replace the value if the key is
present, else append the pair at the end (dicts preserve insertion order). -/
def dictInsert (m : List (String × HVal)) (k : String) (v : HVal) :
    List (String × HVal) :=
  if m.any fun p => p.1 = k then
    m.map fun p => if p.1 = k then (k, v) else p
  else m ++ [(k, v)]

/-- Body of the loop in `Holidays.get_holiday_names`: for one registry item
`p = (holidays_id, holidays_set)`, either record the holiday name (when
`holidays_set.get(provided_date)` is not `None`) or record `False`/`None`.
The Python loop also guards `if holidays_set is not None`; registry values
are always calendars (a calendar is stored under every inserted code), so
the guard is vacuous and the model's calendars are total. -/
def holidayStep (provided_date : Date) (holidays_dict : List (String × HVal))
    (p : String × HolidayCalendar) : List (String × HVal) :=
  match p.2 provided_date with
  | some holiday =>
      dictInsert (dictInsert holidays_dict ("is_holiday_" ++ p.1) (.flag true))
        ("holiday_name_" ++ p.1) (.hname (some holiday))
  | none =>
      dictInsert (dictInsert holidays_dict ("is_holiday_" ++ p.1) (.flag false))
        ("holiday_name_" ++ p.1) (.hname none)

/-- `Holidays.get_holiday_names`: loop over the registry items and fill a
dict with the `is_holiday_[CODE]` / `holiday_name_[CODE]` entries. -/
def Holidays.get_holiday_names (hs : Holidays) (provided_date : Date) :
    List (String × HVal) :=
  hs.holidays.foldl (holidayStep provided_date) []

/-- Registration loop shared by `Holidays.country_holidays` and
`Holidays.financial_holidays`: for each code, look it up with the external
provider and store the calendar under the code; an unknown code raises
`NotImplementedError`, which aborts the loop (earlier insertions persist)
and is reported as `Err`. -/
def registerCalendars (m : List (String × HolidayCalendar))
    (provider : String → Option HolidayCalendar) :
    List String → List (String × HolidayCalendar) × Option String
  | [] => (m, none)
  | code :: rest =>
    match provider code with
    | none => (m, some ("NotImplementedError: " ++ code))
    | some cal =>
      let m2 := if m.any fun p => p.1 = code then
          m.map fun p => if p.1 = code then (code, cal) else p
        else m ++ [(code, cal)]
      registerCalendars m2 provider rest

/-- The two dict entries a single registry item contributes for a date. -/
def holidayEntries (d : Date) (p : String × HolidayCalendar) : List (String × HVal) :=
  match p.2 d with
  | some holiday =>
      [("is_holiday_" ++ p.1, .flag true), ("holiday_name_" ++ p.1, .hname (some holiday))]
  | none =>
      [("is_holiday_" ++ p.1, .flag false), ("holiday_name_" ++ p.1, .hname none)]

/-! ### Row generator definitions
(`DateDimensionGenerator.generate`, `src/datedim_generate/generate.py`).

The date range and per-day fields are produced by `polars` expressions
(`polars.date_range(start, end, "1d", closed="both")`, `dt.strftime`,
`dt.weekday`, `dt.month_end`, `dt.iso_year`, `dt.week`, ...).  `polars` is
external; the definitions below model those expressions day by day, per
their documented calendar semantics, which is also what the spec states
("for each date in [start, end], computes a fixed set of derived
attributes"). -/

/-- Little-endian decimal digits of `n` (fuel-based, `[]` for 0). -/
def decDigitsAux : Nat → Nat → List Nat
  | 0, _ => []
  | _, 0 => []
  | fuel + 1, n + 1 => (n + 1) % 10 :: decDigitsAux fuel ((n + 1) / 10)

def decDigits (n : Nat) : List Nat := decDigitsAux n n

/-- The integer obtained by parsing the concatenation of the decimal year
and a list of zero-padded low-order digit fields: models
`strftime(...).str.to_integer()` for formats such as `%Y%m%d` (the month
and day fields are zero-padded to width 2, the year field leads). -/
def fieldsToInt (lowDigits : List Nat) (year : Nat) : Nat :=
  Nat.ofDigits 10 (lowDigits ++ decDigits year)

/-- `strftime("%A")` weekday names, indexed by ISO weekday 1..7. -/
def weekdayName : Nat → String
  | 1 => "Monday"
  | 2 => "Tuesday"
  | 3 => "Wednesday"
  | 4 => "Thursday"
  | 5 => "Friday"
  | 6 => "Saturday"
  | 7 => "Sunday"
  | _ => ""

/-- `strftime("%a")` abbreviated weekday names, indexed by ISO weekday. -/
def weekdayShort : Nat → String
  | 1 => "Mon"
  | 2 => "Tue"
  | 3 => "Wed"
  | 4 => "Thu"
  | 5 => "Fri"
  | 6 => "Sat"
  | 7 => "Sun"
  | _ => ""

/-- `strftime("%B")` month names. -/
def monthName : Nat → String
  | 1 => "January"
  | 2 => "February"
  | 3 => "March"
  | 4 => "April"
  | 5 => "May"
  | 6 => "June"
  | 7 => "July"
  | 8 => "August"
  | 9 => "September"
  | 10 => "October"
  | 11 => "November"
  | 12 => "December"
  | _ => ""

/-- `strftime("%b")` abbreviated month names. -/
def monthShort : Nat → String
  | 1 => "Jan"
  | 2 => "Feb"
  | 3 => "Mar"
  | 4 => "Apr"
  | 5 => "May"
  | 6 => "Jun"
  | 7 => "Jul"
  | 8 => "Aug"
  | 9 => "Sep"
  | 10 => "Oct"
  | 11 => "Nov"
  | 12 => "Dec"
  | _ => ""

/-- `polars` `dt.month_end`: the date moved to the last day of its month. -/
def monthEnd (d : Date) : Date :=
  ⟨d.year, d.month, daysInMonth d.year d.month⟩

/-- Rata Die number of the Monday starting ISO week 1 of year `y` (the week
containing the first Thursday of the year, equivalently the week containing
January 4).  This is the anchor used by ISO-8601 week dates
(`datetime.isocalendar`, `polars` `dt.iso_year` / `dt.week`). -/
def week1Monday (y : Nat) : Nat :=
  if (rataDie ⟨y, 1, 1⟩ - 1) % 7 + 1 ≤ 4 then
    rataDie ⟨y, 1, 1⟩ + 1 - ((rataDie ⟨y, 1, 1⟩ - 1) % 7 + 1)
  else
    rataDie ⟨y, 1, 1⟩ + 8 - ((rataDie ⟨y, 1, 1⟩ - 1) % 7 + 1)

/-- ISO-8601 calendar pair (ISO year, ISO week number) of a date, computed
as `datetime.date.isocalendar` does: week = weeks elapsed since the week-1
Monday of the calendar year, moving to the previous year when the date
falls before that Monday and to the next year when it falls on or after
the next year's week-1 Monday. -/
def isoCalendar (d : Date) : Nat × Nat :=
  if rataDie d < week1Monday d.year then
    (d.year - 1, (rataDie d - week1Monday (d.year - 1)) / 7 + 1)
  else if week1Monday (d.year + 1) ≤ rataDie d then
    (d.year + 1, 1)
  else
    (d.year, (rataDie d - week1Monday d.year) / 7 + 1)

/-- One row of the generated date-dimension table: the columns built in
`DateDimensionGenerator.generate`. -/
structure Row where
  datekey : Nat
  date_raw : Date
  dayofweek : String
  dayofweek_short : String
  month : String
  year : Nat
  yearmonthnum : Nat
  monthyear : String
  daynuminweek : Nat
  daynuminmonth : Nat
  daynuminyear : Nat
  monthnuminyear : Nat
  iso_year : Nat
  iso_weeknuminyear : Nat
  is_last_day_in_week : Bool
  is_last_day_in_month : Bool
  is_holiday : Bool
  is_weekday : Bool

/-- The row of one date, column by column as in
`DateDimensionGenerator.generate`. -/
def generateRow (hols : Holidays) (d : Date) : Row where
  datekey := fieldsToInt [d.day % 10, d.day / 10, d.month % 10, d.month / 10] d.year
  date_raw := d
  dayofweek := weekdayName (isoWeekday d)
  dayofweek_short := weekdayShort (isoWeekday d)
  month := monthName d.month
  year := d.year
  yearmonthnum := fieldsToInt [d.month % 10, d.month / 10] d.year
  monthyear := monthShort d.month ++ toString d.year
  daynuminweek := isoWeekday d
  daynuminmonth := d.day
  daynuminyear := daysBeforeMonth d.year d.month + d.day
  monthnuminyear := d.month
  iso_year := (isoCalendar d).1
  iso_weeknuminyear := (isoCalendar d).2
  is_last_day_in_week := decide (isoWeekday d = 7)
  is_last_day_in_month := decide (d = monthEnd d)
  is_holiday := hols.is_holiday d
  is_weekday := decide (isoWeekday d < 6)

/-- `n` consecutive dates starting at `d`. -/
def dateList : Date → Nat → List Date
  | _, 0 => []
  | d, n + 1 => d :: dateList (nextDate d) n

/-- `polars.date_range(start, end, "1d", closed="both", eager=True)`: all
calendar days from `start` to `end` inclusive. -/
def dateRange (s e : Date) : List Date :=
  dateList s (rataDie e + 1 - rataDie s)

/-- The wrapper around `polars.DataFrame`.  `rows` holds the always-present
columns; `extraCols` holds, per row, the unnested per-calendar holiday
columns added by `generate_holiday_columns` (empty when not requested). -/
structure DataFrame where
  rows : List Row
  extraCols : List (List (String × HVal))

/-- `DataFrame.generate_holiday_columns`: map `get_holiday_names` over the
`date_raw` column and unnest the resulting struct column. -/
def DataFrame.generate_holiday_columns (df : DataFrame) (user_holidays : Holidays) :
    DataFrame :=
  { df with extraCols := df.rows.map fun r => user_holidays.get_holiday_names r.date_raw }

/-- Output file kinds of the table sink. -/
inductive OutKind where
  | csv
  | parquet
deriving DecidableEq

/-- `DataFrame.output`: write the dataframe as CSV or Parquet (the actual
file write is external I/O; the model returns the kind and name of the file
written, and `none` for a format the `match` does not handle). -/
def DataFrame.output (_df : DataFrame) (out_format : String) :
    Option (OutKind × String) :=
  if out_format = "csv" then some (.csv, "datedimension.csv")
  else if out_format = "parquet" then some (.parquet, "datedimension.parquet")
  else none

/-- The validated configuration held by `Arguments` after
`__process_arguments` succeeds. -/
structure Config where
  start_date : Date
  end_date : Date
  hols : Holidays
  use_holiday_names : Bool
  out_format : String

/-- `DateDimensionGenerator.generate`: one row per date of the range, and
the optional unnested holiday-name columns. -/
def DateDimensionGenerator.generate (cfg : Config) : DataFrame :=
  let df : DataFrame :=
    { rows := (dateRange cfg.start_date cfg.end_date).map (generateRow cfg.hols)
      extraCols := [] }
  if cfg.use_holiday_names then df.generate_holiday_columns cfg.hols else df

/-! ### Argument processing (`Arguments.__process_arguments`)

Modelled from the spec for the external pieces: `datetime.strptime` with
format `%Y-%m-%d` is an external library call, modelled as splitting on
`-` into three decimal fields that must form a valid date; `str.lower` is
modelled as ASCII lowercasing.  Everything else follows the Python
function line by line (the CLI string path: `-s`/`-e` are optional strings,
absent arguments are `None`). -/

/-- Split a character list on `-` separators (three fields for a date). -/
def splitOnDash : List Char → List (List Char)
  | [] => [[]]
  | c :: rest =>
    match splitOnDash rest with
    | [] => if c = '-' then [[], []] else [[c]]
    | g :: gs => if c = '-' then [] :: g :: gs else (c :: g) :: gs

/-- The value of a decimal digit character. -/
def digitVal (c : Char) : Option Nat :=
  if '0' ≤ c ∧ c ≤ '9' then some (c.toNat - '0'.toNat) else none

def parseNatAux : List Char → Nat → Option Nat
  | [], acc => some acc
  | c :: rest, acc =>
    match digitVal c with
    | none => none
    | some v => parseNatAux rest (acc * 10 + v)

/-- A non-empty all-digit field as a number. -/
def parseNat : List Char → Option Nat
  | [] => none
  | cs => parseNatAux cs 0

/-- Modelled from the spec: `datetime.strptime(s, "%Y-%m-%d").date()` —
the external `datetime` parser.  Three dash-separated decimal fields that
form a valid `datetime.date` (CPython years are 1..9999); anything else
raises `ValueError`, modelled as `none`. -/
def parseDate (s : String) : Option Date :=
  match splitOnDash s.data with
  | [ys, ms, ds] =>
    match parseNat ys, parseNat ms, parseNat ds with
    | some y, some m, some d =>
      if 1 ≤ y ∧ y ≤ 9999 ∧ (Date.mk y m d).Valid then some ⟨y, m, d⟩ else none
    | _, _, _ => none
  | _ => none

/-- ASCII lowercasing of a character (`str.lower` on the format names). -/
def lowerChar (c : Char) : Char :=
  if 'A' ≤ c ∧ c ≤ 'Z' then Char.ofNat (c.toNat + 32) else c

/-- `str.lower`, modelled character by character. -/
def lowerString (s : String) : String :=
  ⟨s.data.map lowerChar⟩

/-- The distinct `Err` cases of `__process_arguments` (the Python code
returns `Err` with a message string; the constructor records which
message). -/
inductive ArgError where
  | missingDates
  | dateParse
  | startAfterEnd
  | countryCode
  | financialCode
  | outFormat
deriving DecidableEq

/-- `Arguments.__process_arguments` on the CLI path: optional start/end
date strings, country and financial code lists resolved through the
external `holidays` providers, the `holiday_names_columns` flag and the
optional output format.  Mirrors the Python control flow: missing dates,
unparseable dates, start after end, unknown holiday codes, then the
names-columns warning, then the format match, in that order. -/
def processArguments (start_date end_date : Option String)
    (countryProvider financialProvider : String → Option HolidayCalendar)
    (country_holidays financial_holidays : List String)
    (holiday_names_columns : Bool) (out_format : Option String) :
    Except ArgError Config :=
  match start_date, end_date with
  | none, _ => .error .missingDates
  | _, none => .error .missingDates
  | some ss, some es =>
    match parseDate ss, parseDate es with
    | none, _ => .error .dateParse
    | _, none => .error .dateParse
    | some sd, some ed =>
      if DateLt ed sd then .error .startAfterEnd
      else
        match registerCalendars [] countryProvider country_holidays with
        | (_, some _) => .error .countryCode
        | (m1, none) =>
          match registerCalendars m1 financialProvider financial_holidays with
          | (_, some _) => .error .financialCode
          | (m2, none) =>
            let user_holidays : Holidays := ⟨m2⟩
            let use_holiday_names :=
              if holiday_names_columns ∧ user_holidays.is_empty then false
              else holiday_names_columns
            let fmt := lowerString (out_format.getD "parquet")
            if fmt = "csv" then
              .ok ⟨sd, ed, user_holidays, use_holiday_names, "csv"⟩
            else if fmt = "parquet" then
              .ok ⟨sd, ed, user_holidays, use_holiday_names, "parquet"⟩
            else .error .outFormat

/-! ### The legacy script `src/generate.py`

Its `Holidays` class declares `holidays = []` at class level: one list
object shared by every instance.  The constructor does not rebind it, and
`country_holidays`/`financial_holidays` append to it in place, so the
class-level list is the whole mutable state; an instance holds no state of
its own.  The model passes that shared class-attribute list explicitly. -/

/-- Initial value of the legacy class attribute `Holidays.holidays`. -/
def Legacy.classHolidays : List HolidayCalendar := []

/-- Legacy `Holidays.country_holidays` (and, identically,
`financial_holidays`): append each resolved calendar to the shared class
list; an unknown code raises `NotImplementedError`, reported as `Err`,
with earlier appends kept. -/
def Legacy.country_holidays (classAttr : List HolidayCalendar)
    (provider : String → Option HolidayCalendar) :
    List String → List HolidayCalendar × Option String
  | [] => (classAttr, none)
  | code :: rest =>
    match provider code with
    | none => (classAttr, some ("NotImplementedError: " ++ code))
    | some cal => Legacy.country_holidays (classAttr ++ [cal]) provider rest

/-- Legacy `Holidays.is_holiday`: every instance reads the same class
list. -/
def Legacy.is_holiday (classAttr : List HolidayCalendar) (date : Date) : Bool :=
  classAttr.any fun entry => (entry date).isSome

/-! ### Concrete data used by the witnesses -/

/-- A one-day calendar used in witnesses (US Independence Day, year 4). -/
def demoCal : HolidayCalendar :=
  fun d => if d = ⟨4, 7, 4⟩ then some "Independence Day" else none

/-- A second one-day calendar (year 4). -/
def demoCal2 : HolidayCalendar :=
  fun d => if d = ⟨4, 12, 25⟩ then some "Christmas Day" else none

/-- A provider resolving the codes `US` and `DE` only. -/
def demoProvider : String → Option HolidayCalendar :=
  fun code => if code = "US" then some demoCal
    else if code = "DE" then some demoCal2 else none

/-- A registry with the two demo calendars. -/
def demoHolidays : Holidays := ⟨[("US", demoCal), ("DE", demoCal2)]⟩

/-- A small concrete configuration (year 4-5 boundary, no holidays). -/
def demoConfig : Config :=
  ⟨⟨4, 12, 29⟩, ⟨5, 1, 2⟩, ⟨[]⟩, false, "parquet"⟩

/-! ### Basic calendar lemmas -/

theorem daysInMonth_pos (y m : Nat) : 1 ≤ daysInMonth y m := by
  unfold daysInMonth
  split
  · split <;> omega
  · split <;> omega

theorem daysInMonth_le (y m : Nat) : daysInMonth y m ≤ 31 := by
  unfold daysInMonth
  split
  · split <;> omega
  · split <;> omega

theorem daysBeforeMonth_succ (y m : Nat) (hm : 1 ≤ m) :
    daysBeforeMonth y (m + 1) = daysBeforeMonth y m + daysInMonth y m := by
  conv_lhs => rw [daysBeforeMonth]
  have : ¬ m = 0 := by omega
  simp [this]

theorem daysBeforeMonth_mono (y : Nat) {a b : Nat} (h : a ≤ b) :
    daysBeforeMonth y a ≤ daysBeforeMonth y b := by
  induction h with
  | refl => exact Nat.le_refl _
  | step h2 ih =>
    rw [daysBeforeMonth]
    split <;> omega

theorem daysBeforeMonth_13 (y : Nat) : daysBeforeMonth y 13 = daysInYear y := by
  rcases h : isLeapYear y with hf | ht <;>
    simp [daysBeforeMonth, daysInMonth, daysInYear, h]

theorem daysThroughYear_succ (y : Nat) (hy : 1 ≤ y) :
    daysThroughYear y = daysThroughYear (y - 1) + daysInYear y := by
  obtain ⟨k, rfl⟩ : ∃ k, y = k + 1 := ⟨y - 1, by omega⟩
  simp [daysThroughYear]

theorem daysThroughYear_mono {a b : Nat} (h : a ≤ b) :
    daysThroughYear a ≤ daysThroughYear b := by
  induction h with
  | refl => exact Nat.le_refl _
  | step h2 ih =>
    rw [daysThroughYear]
    omega

theorem daysInYear_ge (y : Nat) : 365 ≤ daysInYear y := by
  unfold daysInYear; split <;> omega

theorem daysInYear_le (y : Nat) : daysInYear y ≤ 366 := by
  unfold daysInYear; split <;> omega

/-- Within a valid date, month offset plus day is at most the year length. -/
theorem daysBeforeMonth_add_day_le (y m day : Nat)
    (hm1 : 1 ≤ m) (hm2 : m ≤ 12) (hd : day ≤ daysInMonth y m) :
    daysBeforeMonth y m + day ≤ daysInYear y := by
  have h1 : daysBeforeMonth y m + day ≤ daysBeforeMonth y (m + 1) := by
    rw [daysBeforeMonth_succ y m hm1]; omega
  have h2 : daysBeforeMonth y (m + 1) ≤ daysBeforeMonth y 13 :=
    daysBeforeMonth_mono y (by omega)
  rw [daysBeforeMonth_13] at h2
  omega

/-- Bounds of a valid date's day number within its year. -/
theorem rataDie_year_bounds {d : Date} (h : d.Valid) :
    daysThroughYear (d.year - 1) + 1 ≤ rataDie d ∧
    rataDie d ≤ daysThroughYear d.year := by
  obtain ⟨hy, hm1, hm2, hd1, hd2⟩ := h
  have hle := daysBeforeMonth_add_day_le d.year d.month d.day hm1 hm2 hd2
  have hstep := daysThroughYear_succ d.year hy
  unfold rataDie
  omega

theorem valid_mk (y m day : Nat) :
    (Date.mk y m day).Valid ↔
      1 ≤ y ∧ 1 ≤ m ∧ m ≤ 12 ∧ 1 ≤ day ∧ day ≤ daysInMonth y m :=
  Iff.rfl

theorem rataDie_mk (y m day : Nat) :
    rataDie ⟨y, m, day⟩ = daysThroughYear (y - 1) + daysBeforeMonth y m + day :=
  rfl

/-- The calendar successor of a valid date is valid. -/
theorem nextDate_valid {d : Date} (h : d.Valid) : (nextDate d).Valid := by
  obtain ⟨hy, hm1, hm2, hd1, hd2⟩ := h
  unfold nextDate
  split
  · rw [valid_mk]
    exact ⟨hy, hm1, hm2, by omega, by omega⟩
  · split
    · rw [valid_mk]
      exact ⟨hy, by omega, by omega, by omega, daysInMonth_pos _ _⟩
    · rw [valid_mk]
      exact ⟨by omega, by omega, by omega, by omega, daysInMonth_pos _ _⟩

/-- The calendar successor advances the day number by exactly one. -/
theorem rataDie_nextDate {d : Date} (h : d.Valid) :
    rataDie (nextDate d) = rataDie d + 1 := by
  obtain ⟨y, m, day⟩ := d
  obtain ⟨hy, hm1, hm2, hd1, hd2⟩ := h
  simp only at hy hm1 hm2 hd1 hd2
  unfold nextDate
  simp only
  split
  · rw [rataDie_mk, rataDie_mk]; omega
  · rename_i hday
    have hdm : day = daysInMonth y m := by omega
    split
    · rename_i hmon
      rw [rataDie_mk, rataDie_mk]
      have := daysBeforeMonth_succ y m hm1
      omega
    · rename_i hmon
      have h12 : m = 12 := by omega
      subst h12 hdm
      rw [rataDie_mk, rataDie_mk]
      have h13 : daysBeforeMonth y 13 = daysInYear y := daysBeforeMonth_13 y
      have hstep13 : daysBeforeMonth y 13 =
          daysBeforeMonth y 12 + daysInMonth y 12 :=
        daysBeforeMonth_succ y 12 (by omega)
      have hys : daysThroughYear y = daysThroughYear (y - 1) + daysInYear y :=
        daysThroughYear_succ y hy
      have hy1 : y + 1 - 1 = y := by omega
      have hb1 : daysBeforeMonth (y + 1) 1 = 0 := rfl
      rw [hy1, hb1]
      omega

/-- Strict monotonicity of the day number in the date order. -/
theorem rataDie_lt_of_dateLt {a b : Date} (ha : a.Valid) (hb : b.Valid)
    (hlt : DateLt a b) : rataDie a < rataDie b := by
  obtain ⟨hay, ham1, ham2, had1, had2⟩ := ha
  obtain ⟨hby, hbm1, hbm2, hbd1, hbd2⟩ := hb
  rcases hlt with hy | ⟨hy, hm | ⟨hm, hd⟩⟩
  · -- earlier year: a is at most the end of its year, b past the start of its
    have h1 : rataDie a ≤ daysThroughYear a.year :=
      (rataDie_year_bounds ⟨hay, ham1, ham2, had1, had2⟩).2
    have h2 : daysThroughYear (b.year - 1) + 1 ≤ rataDie b :=
      (rataDie_year_bounds ⟨hby, hbm1, hbm2, hbd1, hbd2⟩).1
    have h3 : daysThroughYear a.year ≤ daysThroughYear (b.year - 1) :=
      daysThroughYear_mono (by omega)
    omega
  · -- same year, earlier month
    have h1 : daysBeforeMonth a.year a.month + a.day ≤ daysBeforeMonth a.year (a.month + 1) := by
      rw [daysBeforeMonth_succ a.year a.month ham1]; omega
    have h2 : daysBeforeMonth a.year (a.month + 1) ≤ daysBeforeMonth a.year b.month :=
      daysBeforeMonth_mono a.year (by omega)
    unfold rataDie
    rw [← hy] at *
    omega
  · -- same year and month, earlier day
    unfold rataDie
    rw [← hy, ← hm] at *
    omega

/-- The day number is injective on valid dates. -/
theorem rataDie_inj {a b : Date} (ha : a.Valid) (hb : b.Valid)
    (h : rataDie a = rataDie b) : a = b := by
  by_contra hne
  have htri : DateLt a b ∨ DateLt b a := by
    have hne2 : ¬ (a.year = b.year ∧ a.month = b.month ∧ a.day = b.day) := by
      intro ⟨h1, h2, h3⟩
      exact hne (by cases a; cases b; simp_all)
    unfold DateLt
    omega
  rcases htri with hlt | hlt
  · have := rataDie_lt_of_dateLt ha hb hlt; omega
  · have := rataDie_lt_of_dateLt hb ha hlt; omega

/-- Python's date comparison agrees with the day-number order on valid dates. -/
theorem dateLe_iff_rataDie_le {a b : Date} (ha : a.Valid) (hb : b.Valid) :
    DateLe a b ↔ rataDie a ≤ rataDie b := by
  constructor
  · rintro (hlt | rfl)
    · exact Nat.le_of_lt (rataDie_lt_of_dateLt ha hb hlt)
    · omega
  · intro hle
    by_contra hnot
    have h1 : ¬ DateLt a b := fun h => hnot (Or.inl h)
    have h2 : a ≠ b := fun h => hnot (Or.inr h)
    have hlt : DateLt b a := by
      have hne2 : ¬ (a.year = b.year ∧ a.month = b.month ∧ a.day = b.day) := by
        intro ⟨x1, x2, x3⟩
        exact h2 (by cases a; cases b; simp_all)
      unfold DateLt at h1 ⊢
      omega
    have := rataDie_lt_of_dateLt hb ha hlt
    omega

/-! ### Key lemmas for the generated dict -/

theorem string_append_left_cancel {s a b : String} (h : s ++ a = s ++ b) : a = b := by
  cases s; cases a; cases b
  simp only [String.ext_iff, String.data_append] at h ⊢
  exact List.append_cancel_left h

theorem flagKey_inj {a b : String} (h : "is_holiday_" ++ a = "is_holiday_" ++ b) :
    a = b :=
  string_append_left_cancel h

theorem nameKey_inj {a b : String} (h : "holiday_name_" ++ a = "holiday_name_" ++ b) :
    a = b :=
  string_append_left_cancel h

theorem flagKey_ne_nameKey (a b : String) :
    "is_holiday_" ++ a ≠ "holiday_name_" ++ b := by
  intro h
  have h2 := congrArg String.data h
  simp only [String.data_append] at h2
  simp at h2

theorem holidayEntries_keys (d : Date) (p : String × HolidayCalendar) (kv : String × HVal)
    (h : kv ∈ holidayEntries d p) :
    kv.1 = "is_holiday_" ++ p.1 ∨ kv.1 = "holiday_name_" ++ p.1 := by
  unfold holidayEntries at h
  rcases hpd : p.2 d with _ | hol <;> rw [hpd] at h <;>
    simp only [List.mem_cons, List.not_mem_nil, or_false] at h <;>
    rcases h with rfl | rfl <;> simp

theorem dictInsert_fresh (m : List (String × HVal)) (k : String) (v : HVal)
    (h : ∀ kv ∈ m, kv.1 ≠ k) : dictInsert m k v = m ++ [(k, v)] := by
  have hc : (m.any fun p => p.1 = k) = false := by
    simp only [List.any_eq_false, decide_eq_true_eq]
    intro kv hm
    exact h kv hm
  unfold dictInsert
  rw [hc]
  simp

/-- With fresh keys, one loop step appends the item's two entries. -/
theorem holidayStep_fresh (d : Date) (acc : List (String × HVal))
    (p : String × HolidayCalendar)
    (hf : ∀ kv ∈ acc, kv.1 ≠ "is_holiday_" ++ p.1 ∧ kv.1 ≠ "holiday_name_" ++ p.1) :
    holidayStep d acc p = acc ++ holidayEntries d p := by
  have h1 : ∀ (b : Bool) (n : Option String),
      dictInsert (dictInsert acc ("is_holiday_" ++ p.1) (.flag b))
          ("holiday_name_" ++ p.1) (.hname n) =
        acc ++ [("is_holiday_" ++ p.1, .flag b), ("holiday_name_" ++ p.1, .hname n)] := by
    intro b n
    rw [dictInsert_fresh acc _ _ (fun kv hm => (hf kv hm).1)]
    rw [dictInsert_fresh _ _ _ ?_]
    · simp
    · intro kv hm
      rcases List.mem_append.mp hm with hm | hm
      · exact (hf kv hm).2
      · simp only [List.mem_singleton] at hm
        subst hm
        exact flagKey_ne_nameKey p.1 p.1
  unfold holidayStep holidayEntries
  rcases hpd : p.2 d with _ | hol <;> dsimp only <;> exact h1 _ _

theorem get_holiday_names_fold_aux (d : Date) (l : List (String × HolidayCalendar))
    (acc : List (String × HVal))
    (hfresh : ∀ p ∈ l, ∀ kv ∈ acc,
      kv.1 ≠ "is_holiday_" ++ p.1 ∧ kv.1 ≠ "holiday_name_" ++ p.1)
    (hnd : (l.map Prod.fst).Nodup) :
    l.foldl (holidayStep d) acc = acc ++ l.flatMap (holidayEntries d) := by
  induction l generalizing acc with
  | nil => simp
  | cons p rest ih =>
    have hfresh_p := hfresh p (by simp)
    have hacc2 : ∀ q ∈ rest, ∀ kv ∈ acc ++ holidayEntries d p,
        kv.1 ≠ "is_holiday_" ++ q.1 ∧ kv.1 ≠ "holiday_name_" ++ q.1 := by
      intro q hq kv hkv
      rcases List.mem_append.mp hkv with hm | hm
      · exact hfresh q (by simp [hq]) kv hm
      · have hpq : p.1 ≠ q.1 := by
          simp only [List.map_cons, List.nodup_cons, List.mem_map] at hnd
          intro he
          exact hnd.1 ⟨q, hq, he.symm⟩
        rcases holidayEntries_keys d p kv hm with hk | hk <;> rw [hk] <;>
          refine ⟨?_, ?_⟩
        · intro he; exact hpq (flagKey_inj he)
        · exact flagKey_ne_nameKey p.1 q.1
        · intro he; exact (flagKey_ne_nameKey q.1 p.1) he.symm
        · intro he; exact hpq (nameKey_inj he)
    rw [List.foldl_cons, holidayStep_fresh d acc p hfresh_p]
    rw [ih _ hacc2 (by simp_all)]
    simp

/-- With distinct registry codes (always true of the Python dict), the
generated per-date dict is the flat list of per-calendar entry pairs. -/
theorem get_holiday_names_eq (hs : Holidays) (d : Date)
    (hnd : (hs.holidays.map Prod.fst).Nodup) :
    hs.get_holiday_names d = hs.holidays.flatMap (holidayEntries d) := by
  unfold Holidays.get_holiday_names
  rw [get_holiday_names_fold_aux d hs.holidays [] (by simp) hnd]
  simp

theorem holidayEntries_some {d : Date} {q : String × HolidayCalendar} {hol : String}
    (h : q.2 d = some hol) :
    holidayEntries d q =
      [("is_holiday_" ++ q.1, .flag true), ("holiday_name_" ++ q.1, .hname (some hol))] := by
  unfold holidayEntries; rw [h]

theorem holidayEntries_none {d : Date} {q : String × HolidayCalendar}
    (h : q.2 d = none) :
    holidayEntries d q =
      [("is_holiday_" ++ q.1, .flag false), ("holiday_name_" ++ q.1, .hname none)] := by
  unfold holidayEntries; rw [h]

theorem lookup_cons_hit (k : String) (v : HVal) (t : List (String × HVal)) :
    List.lookup k ((k, v) :: t) = some v := by
  rw [List.lookup, beq_self_eq_true]

theorem lookup_cons_skip (k a : String) (v : HVal) (t : List (String × HVal))
    (h : k ≠ a) : List.lookup k ((a, v) :: t) = List.lookup k t := by
  rw [List.lookup, beq_false_of_ne h]

/-- Looking up `is_holiday_[CODE]` for a registered code. -/
theorem lookup_flag_of_mem (d : Date) (l : List (String × HolidayCalendar))
    (hnd : (l.map Prod.fst).Nodup) (p : String × HolidayCalendar) (hp : p ∈ l) :
    (l.flatMap (holidayEntries d)).lookup ("is_holiday_" ++ p.1) =
      some (.flag (p.2 d).isSome) := by
  induction l with
  | nil => simp at hp
  | cons q rest ih =>
    rw [List.flatMap_cons]
    rcases List.mem_cons.mp hp with rfl | hp2
    · rcases hqd : p.2 d with _ | hol
      · rw [holidayEntries_none hqd, List.cons_append, lookup_cons_hit]
        simp
      · rw [holidayEntries_some hqd, List.cons_append, lookup_cons_hit]
        simp
    · have hne : p.1 ≠ q.1 := by
        simp only [List.map_cons, List.nodup_cons, List.mem_map] at hnd
        intro he
        exact hnd.1 ⟨p, hp2, he⟩
      have h1 : ("is_holiday_" ++ p.1) ≠ ("is_holiday_" ++ q.1) :=
        fun he => hne (flagKey_inj he)
      have h2 : ("is_holiday_" ++ p.1) ≠ ("holiday_name_" ++ q.1) :=
        flagKey_ne_nameKey p.1 q.1
      have hrest := ih (by simp_all) hp2
      rcases hqd : q.2 d with _ | hol
      · rw [holidayEntries_none hqd, List.cons_append, List.cons_append,
          List.nil_append, lookup_cons_skip _ _ _ _ h1,
          lookup_cons_skip _ _ _ _ h2, hrest]
      · rw [holidayEntries_some hqd, List.cons_append, List.cons_append,
          List.nil_append, lookup_cons_skip _ _ _ _ h1,
          lookup_cons_skip _ _ _ _ h2, hrest]

/-- Looking up `holiday_name_[CODE]` for a registered code. -/
theorem lookup_name_of_mem (d : Date) (l : List (String × HolidayCalendar))
    (hnd : (l.map Prod.fst).Nodup) (p : String × HolidayCalendar) (hp : p ∈ l) :
    (l.flatMap (holidayEntries d)).lookup ("holiday_name_" ++ p.1) =
      some (.hname (p.2 d)) := by
  induction l with
  | nil => simp at hp
  | cons q rest ih =>
    rw [List.flatMap_cons]
    rcases List.mem_cons.mp hp with rfl | hp2
    · have h2 : ("holiday_name_" ++ p.1) ≠ ("is_holiday_" ++ p.1) :=
        fun he => flagKey_ne_nameKey p.1 p.1 he.symm
      rcases hqd : p.2 d with _ | hol
      · rw [holidayEntries_none hqd, List.cons_append, List.cons_append,
          List.nil_append, lookup_cons_skip _ _ _ _ h2, lookup_cons_hit]
      · rw [holidayEntries_some hqd, List.cons_append, List.cons_append,
          List.nil_append, lookup_cons_skip _ _ _ _ h2, lookup_cons_hit]
    · have hne : p.1 ≠ q.1 := by
        simp only [List.map_cons, List.nodup_cons, List.mem_map] at hnd
        intro he
        exact hnd.1 ⟨p, hp2, he⟩
      have h1 : ("holiday_name_" ++ p.1) ≠ ("is_holiday_" ++ q.1) :=
        fun he => flagKey_ne_nameKey q.1 p.1 he.symm
      have h2 : ("holiday_name_" ++ p.1) ≠ ("holiday_name_" ++ q.1) :=
        fun he => hne (nameKey_inj he)
      have hrest := ih (by simp_all) hp2
      rcases hqd : q.2 d with _ | hol
      · rw [holidayEntries_none hqd, List.cons_append, List.cons_append,
          List.nil_append, lookup_cons_skip _ _ _ _ h1,
          lookup_cons_skip _ _ _ _ h2, hrest]
      · rw [holidayEntries_some hqd, List.cons_append, List.cons_append,
          List.nil_append, lookup_cons_skip _ _ _ _ h1,
          lookup_cons_skip _ _ _ _ h2, hrest]

/-- Two registry items with the same code are the same item when codes
are distinct. -/
theorem mem_key_inj {l : List (String × HolidayCalendar)}
    (hnd : (l.map Prod.fst).Nodup) {p q : String × HolidayCalendar}
    (hp : p ∈ l) (hq : q ∈ l) (h : p.1 = q.1) : p = q := by
  induction l with
  | nil => simp at hp
  | cons r rest ih =>
    simp only [List.map_cons, List.nodup_cons, List.mem_map] at hnd
    rcases List.mem_cons.mp hp with rfl | hp2 <;>
      rcases List.mem_cons.mp hq with h2 | hq2
    · exact h2.symm
    · exact absurd ⟨q, hq2, h.symm⟩ hnd.1
    · subst h2; exact absurd ⟨p, hp2, h⟩ hnd.1
    · exact ih hnd.2 hp2 hq2

/-- The total number of dict entries is twice the number of calendars. -/
theorem get_holiday_names_length (hs : Holidays) (d : Date)
    (hnd : (hs.holidays.map Prod.fst).Nodup) :
    (hs.get_holiday_names d).length = 2 * hs.holidays.length := by
  rw [get_holiday_names_eq hs d hnd]
  induction hs.holidays with
  | nil => simp
  | cons p rest ih =>
    rw [List.flatMap_cons]
    have h2 : (holidayEntries d p).length = 2 := by
      unfold holidayEntries
      rcases p.2 d with _ | hol <;> simp
    simp only [List.length_append, h2, List.length_cons, ih]
    ring

/-! ### Range and ISO-week lemmas -/

theorem dateList_length (d : Date) (n : Nat) : (dateList d n).length = n := by
  induction n generalizing d with
  | zero => rfl
  | succ n ih => simp [dateList, ih]

theorem dateList_getElem (d : Date) (n i : Nat) (h : i < n) :
    (dateList d n)[i]? = some (nextDate^[i] d) := by
  induction n generalizing d i with
  | zero => omega
  | succ n ih =>
    cases i with
    | zero => simp [dateList]
    | succ i =>
      rw [dateList]
      rw [List.getElem?_cons_succ, ih (nextDate d) i (by omega),
        Function.iterate_succ_apply]

/-- Iterating the calendar successor keeps validity and advances the day
number linearly. -/
theorem iterate_nextDate {d : Date} (hv : d.Valid) (i : Nat) :
    (nextDate^[i] d).Valid ∧ rataDie (nextDate^[i] d) = rataDie d + i := by
  induction i generalizing d with
  | zero => simpa using hv
  | succ i ih =>
    rw [Function.iterate_succ_apply]
    have hnv := nextDate_valid hv
    have hrd := rataDie_nextDate hv
    obtain ⟨h1, h2⟩ := ih hnv
    exact ⟨h1, by omega⟩

theorem rataDie_jan1 (y : Nat) : rataDie ⟨y, 1, 1⟩ = daysThroughYear (y - 1) + 1 := by
  rw [rataDie_mk]
  rfl

/-- The week-1 Monday is Monday-aligned and within 3 days of January 1. -/
theorem week1Monday_facts (y : Nat) :
    (week1Monday y - 1) % 7 = 0 ∧
    week1Monday y ≤ rataDie ⟨y, 1, 1⟩ + 3 ∧
    rataDie ⟨y, 1, 1⟩ ≤ week1Monday y + 3 ∧
    1 ≤ week1Monday y := by
  have hj : 1 ≤ rataDie ⟨y, 1, 1⟩ := by rw [rataDie_mk]; omega
  unfold week1Monday
  generalize rataDie ⟨y, 1, 1⟩ = j at *
  split <;> omega

/-- ISO week 1 of year `y` contains January 4 of year `y`. -/
theorem week1Monday_jan4 (y : Nat) :
    week1Monday y ≤ rataDie ⟨y, 1, 4⟩ ∧ rataDie ⟨y, 1, 4⟩ < week1Monday y + 7 := by
  have h4 : rataDie ⟨y, 1, 4⟩ = rataDie ⟨y, 1, 1⟩ + 3 := by
    rw [rataDie_mk, rataDie_mk]
  have hf := week1Monday_facts y
  omega

theorem week1Monday_one : week1Monday 1 = 1 := by decide

/-- A valid date lies in the Monday-aligned week its `isoCalendar` pair
describes, and the ISO year and week are at least 1. -/
theorem isoCalendar_mem {d : Date} (hv : d.Valid) :
    1 ≤ (isoCalendar d).1 ∧
    1 ≤ (isoCalendar d).2 ∧
    week1Monday (isoCalendar d).1 + 7 * ((isoCalendar d).2 - 1) ≤ rataDie d ∧
    rataDie d < week1Monday (isoCalendar d).1 + 7 * ((isoCalendar d).2 - 1) + 7 := by
  have hy1 : 1 ≤ d.year := hv.1
  have hb := rataDie_year_bounds hv
  unfold isoCalendar
  split
  · rename_i hlt
    -- the date falls before its year's week-1 Monday: previous ISO year
    rcases Nat.eq_or_lt_of_le hy1 with h1 | h2
    · -- impossible in year 1: its week-1 Monday is day 1
      exfalso
      rw [← h1] at hlt
      rw [week1Monday_one] at hlt
      have : 1 ≤ rataDie d := by
        have := rataDie_year_bounds hv
        omega
      omega
    · -- year at least 2
      have hf := week1Monday_facts (d.year - 1)
      have hj : rataDie ⟨d.year - 1, 1, 1⟩ = daysThroughYear (d.year - 2) + 1 := by
        rw [rataDie_jan1]
        congr 2
      have hty : daysThroughYear (d.year - 1) =
          daysThroughYear (d.year - 2) + daysInYear (d.year - 1) := by
        have := daysThroughYear_succ (d.year - 1) (by omega)
        have he : d.year - 1 - 1 = d.year - 2 := by omega
        rw [he] at this
        exact this
      have hdy := daysInYear_ge (d.year - 1)
      -- the previous year's week-1 Monday is at most jan4 of that year,
      -- far below the current date
      have hle : week1Monday (d.year - 1) ≤ rataDie d := by omega
      simp only
      omega
  · split
    · rename_i hge hnext
      -- on or after next year's week-1 Monday: next ISO year, week 1
      have hf := week1Monday_facts (d.year + 1)
      have hj : rataDie ⟨d.year + 1, 1, 1⟩ = daysThroughYear d.year + 1 := by
        rw [rataDie_jan1]
        congr 2
      simp only
      omega
    · rename_i hge hnext
      push_neg at hge hnext
      simp only
      omega

/-! ### Registry theorems -/

/-- Shape of any entry contributed by one registry item. -/
theorem holidayEntries_shape (d : Date) (p : String × HolidayCalendar)
    (kv : String × HVal) (h : kv ∈ holidayEntries d p) :
    kv = ("is_holiday_" ++ p.1, HVal.flag (p.2 d).isSome) ∨
    kv = ("holiday_name_" ++ p.1, HVal.hname (p.2 d)) := by
  rcases hpd : p.2 d with _ | hol
  · rw [holidayEntries_none hpd] at h
    simpa using h
  · rw [holidayEntries_some hpd] at h
    simpa using h

/-- `is_holiday` scans the registry values for a calendar containing the
date. -/
theorem is_holiday_iff_exists (hs : Holidays) (d : Date) :
    hs.is_holiday d = true ↔ ∃ p ∈ hs.holidays, (p.2 d).isSome = true := by
  unfold Holidays.is_holiday
  rw [List.any_eq_true]
  constructor
  · rintro ⟨cal, hmem, hc⟩
    rcases List.mem_map.mp hmem with ⟨p, hp, rfl⟩
    exact ⟨p, hp, hc⟩
  · rintro ⟨p, hp, hc⟩
    exact ⟨p.2, List.mem_map.mpr ⟨p, hp, rfl⟩, hc⟩

/-- C1: for every `Holidays` registry and date `D`, `is_holiday(D)` is
`True` iff at least one registered holiday calendar contains `D`; in
particular a registry with no calendars answers `False` for every date. -/
theorem claim1_is_holiday_iff :
    (∀ (hs : Holidays) (d : Date),
      hs.is_holiday d = true ↔ ∃ p ∈ hs.holidays, (p.2 d).isSome = true) ∧
    (∀ d : Date, (Holidays.mk []).is_holiday d = false) :=
  ⟨is_holiday_iff_exists, fun _ => rfl⟩

/-- C2: for a registry (whose codes are distinct, as the Python dict
guarantees), `get_holiday_names(D)` holds, for each registered code `C`,
exactly the keys `is_holiday_C` (the flag of whether calendar `C` contains
`D`) and `holiday_name_C` (the holiday's name, or `None`); it has no other
keys, and exactly two entries per calendar. -/
theorem claim2_get_holiday_names (hs : Holidays) (d : Date)
    (hnd : (hs.holidays.map Prod.fst).Nodup) :
    (∀ p ∈ hs.holidays,
      (hs.get_holiday_names d).lookup ("is_holiday_" ++ p.1) =
        some (.flag (p.2 d).isSome) ∧
      (hs.get_holiday_names d).lookup ("holiday_name_" ++ p.1) =
        some (.hname (p.2 d))) ∧
    (∀ kv ∈ hs.get_holiday_names d,
      ∃ p ∈ hs.holidays,
        kv.1 = "is_holiday_" ++ p.1 ∨ kv.1 = "holiday_name_" ++ p.1) ∧
    (hs.get_holiday_names d).length = 2 * hs.holidays.length := by
  refine ⟨?_, ?_, get_holiday_names_length hs d hnd⟩
  · intro p hp
    rw [get_holiday_names_eq hs d hnd]
    exact ⟨lookup_flag_of_mem d _ hnd p hp, lookup_name_of_mem d _ hnd p hp⟩
  · intro kv hkv
    rw [get_holiday_names_eq hs d hnd] at hkv
    rcases List.mem_flatMap.mp hkv with ⟨p, hp, hm⟩
    exact ⟨p, hp, holidayEntries_keys d p kv hm⟩

/-- C2 witness: the two demo calendars on 0004-07-04. -/
theorem claim2_witness :
    (demoHolidays.get_holiday_names ⟨4, 7, 4⟩).lookup ("is_holiday_" ++ "US") =
      some (.flag true) ∧
    (demoHolidays.get_holiday_names ⟨4, 7, 4⟩).lookup ("holiday_name_" ++ "US") =
      some (.hname (some "Independence Day")) ∧
    (demoHolidays.get_holiday_names ⟨4, 7, 4⟩).lookup ("is_holiday_" ++ "DE") =
      some (.flag false) ∧
    (demoHolidays.get_holiday_names ⟨4, 7, 4⟩).length = 4 := by
  have h := claim2_get_holiday_names demoHolidays ⟨4, 7, 4⟩ (by decide)
  have hUS := h.1 ("US", demoCal) (by simp [demoHolidays])
  have hDE := h.1 ("DE", demoCal2) (by simp [demoHolidays])
  refine ⟨?_, ?_, ?_, h.2.2⟩
  · simpa using hUS.1
  · simpa using hUS.2
  · simpa using hDE.1

/-- C10: the combined predicate agrees with the per-date map: `is_holiday`
is `True` iff some `is_holiday_C` entry of `get_holiday_names` is `True`,
and within the map `is_holiday_C` is `True` iff `holiday_name_C` is not
`None`. -/
theorem claim10_agreement (hs : Holidays) (d : Date)
    (hnd : (hs.holidays.map Prod.fst).Nodup) :
    (hs.is_holiday d = true ↔
      ∃ code, ("is_holiday_" ++ code, HVal.flag true) ∈ hs.get_holiday_names d) ∧
    (∀ (code : String) (b : Bool) (n : Option String),
      ("is_holiday_" ++ code, HVal.flag b) ∈ hs.get_holiday_names d →
      ("holiday_name_" ++ code, HVal.hname n) ∈ hs.get_holiday_names d →
      (b = true ↔ n ≠ none)) := by
  rw [get_holiday_names_eq hs d hnd]
  constructor
  · rw [is_holiday_iff_exists]
    constructor
    · rintro ⟨p, hp, hc⟩
      refine ⟨p.1, List.mem_flatMap.mpr ⟨p, hp, ?_⟩⟩
      rcases hpd : p.2 d with _ | hol
      · rw [hpd] at hc; simp at hc
      · rw [holidayEntries_some hpd]; simp
    · rintro ⟨code, hmem⟩
      rcases List.mem_flatMap.mp hmem with ⟨p, hp, hm⟩
      rcases holidayEntries_shape d p _ hm with hsh | hsh
      · have hval : HVal.flag true = HVal.flag (p.2 d).isSome := congrArg Prod.snd hsh
        refine ⟨p, hp, ?_⟩
        simpa using hval.symm
      · exact absurd (congrArg Prod.fst hsh) (flagKey_ne_nameKey code p.1)
  · intro code b n hflag hnm
    rcases List.mem_flatMap.mp hflag with ⟨p, hp, hmp⟩
    rcases List.mem_flatMap.mp hnm with ⟨q, hq, hmq⟩
    rcases holidayEntries_shape d p _ hmp with hsh | hsh
    · rcases holidayEntries_shape d q _ hmq with hsq | hsq
      · exact absurd (congrArg Prod.fst hsq).symm (flagKey_ne_nameKey q.1 code)
      · have hcp : code = p.1 := flagKey_inj (congrArg Prod.fst hsh)
        have hcq : code = q.1 := nameKey_inj (congrArg Prod.fst hsq)
        have hpq : p = q := mem_key_inj hnd hp hq (hcp ▸ hcq ▸ rfl)
        have hb : b = (p.2 d).isSome := by
          have := congrArg Prod.snd hsh
          simpa using this
        have hn : n = q.2 d := by
          have := congrArg Prod.snd hsq
          simpa using this
        subst hpq hb hn
        exact Option.isSome_iff_ne_none
    · exact absurd (congrArg Prod.fst hsh) (flagKey_ne_nameKey code p.1)

/-- C10 witness: the demo registry on 0004-12-25. -/
theorem claim10_witness :
    demoHolidays.is_holiday ⟨4, 12, 25⟩ = true ∧
    (∃ code,
      ("is_holiday_" ++ code, HVal.flag true) ∈
        demoHolidays.get_holiday_names ⟨4, 12, 25⟩) := by
  have h := claim10_agreement demoHolidays ⟨4, 12, 25⟩ (by decide)
  have h1 : demoHolidays.is_holiday ⟨4, 12, 25⟩ = true := by decide
  exact ⟨h1, h.1.mp h1⟩

/-! ### Row generator theorems -/

/-- The rows of the generated dataframe, with or without the optional
holiday-name columns, are the per-date rows of the range. -/
theorem generate_rows_eq (cfg : Config) :
    (DateDimensionGenerator.generate cfg).rows =
      (dateRange cfg.start_date cfg.end_date).map (generateRow cfg.hols) := by
  unfold DateDimensionGenerator.generate DataFrame.generate_holiday_columns
  split <;> rfl

theorem date_raw_generateRow (hols : Holidays) (d : Date) :
    (generateRow hols d).date_raw = d := rfl

theorem dateRange_getElem {s e : Date} (i : Nat)
    (h : i < rataDie e + 1 - rataDie s) :
    (dateRange s e)[i]? = some (nextDate^[i] s) := by
  unfold dateRange
  exact dateList_getElem s _ i h

/-- C3: for every valid `start <= end`, `generate` produces exactly one
row per calendar day of `[start, end]`: the row count is
`end - start + 1` days; row `i` holds the `i`-th consecutive valid day
counted from `start`; row 0 is `start`; consecutive rows hold consecutive
days; and every day of the range appears in exactly one row. -/
theorem claim3_generate_range (cfg : Config)
    (hvs : cfg.start_date.Valid) (hve : cfg.end_date.Valid)
    (hle : DateLe cfg.start_date cfg.end_date) :
    (DateDimensionGenerator.generate cfg).rows.length =
      rataDie cfg.end_date - rataDie cfg.start_date + 1 ∧
    (∀ (i : Nat) (r : Row), (DateDimensionGenerator.generate cfg).rows[i]? = some r →
      r.date_raw.Valid ∧ rataDie r.date_raw = rataDie cfg.start_date + i) ∧
    ((DateDimensionGenerator.generate cfg).rows[0]?.map Row.date_raw =
      some cfg.start_date) ∧
    (∀ (i : Nat) (r r2 : Row),
      (DateDimensionGenerator.generate cfg).rows[i]? = some r →
      (DateDimensionGenerator.generate cfg).rows[i + 1]? = some r2 →
      r2.date_raw = nextDate r.date_raw) ∧
    (∀ d : Date, d.Valid →
      rataDie cfg.start_date ≤ rataDie d → rataDie d ≤ rataDie cfg.end_date →
      ∃ (i : Nat) (r : Row),
        (DateDimensionGenerator.generate cfg).rows[i]? = some r ∧
        r.date_raw = d ∧
        ∀ (j : Nat) (rj : Row),
          (DateDimensionGenerator.generate cfg).rows[j]? = some rj →
          rj.date_raw = d → j = i) := by
  have hrd : rataDie cfg.start_date ≤ rataDie cfg.end_date :=
    (dateLe_iff_rataDie_le hvs hve).mp hle
  rw [generate_rows_eq cfg]
  have hlen : ((dateRange cfg.start_date cfg.end_date).map
      (generateRow cfg.hols)).length = rataDie cfg.end_date + 1 - rataDie cfg.start_date := by
    rw [List.length_map]
    unfold dateRange
    exact dateList_length _ _
  have hget : ∀ i, i < rataDie cfg.end_date + 1 - rataDie cfg.start_date →
      ((dateRange cfg.start_date cfg.end_date).map (generateRow cfg.hols))[i]? =
        some (generateRow cfg.hols (nextDate^[i] cfg.start_date)) := by
    intro i hi
    rw [List.getElem?_map, dateRange_getElem i hi]
    rfl
  have hsome : ∀ (i : Nat) (r : Row),
      ((dateRange cfg.start_date cfg.end_date).map (generateRow cfg.hols))[i]? = some r →
      i < rataDie cfg.end_date + 1 - rataDie cfg.start_date ∧
        r = generateRow cfg.hols (nextDate^[i] cfg.start_date) := by
    intro i r hr
    have hi : i < ((dateRange cfg.start_date cfg.end_date).map (generateRow cfg.hols)).length := by
      by_contra hcon
      rw [List.getElem?_eq_none (by omega)] at hr
      exact Option.noConfusion hr
    rw [hlen] at hi
    refine ⟨hi, ?_⟩
    rw [hget i hi] at hr
    exact (Option.some.injEq _ _ ▸ hr).symm
  refine ⟨by omega, ?_, ?_, ?_, ?_⟩
  · intro i r hr
    obtain ⟨hi, rfl⟩ := hsome i r hr
    obtain ⟨h1, h2⟩ := iterate_nextDate hvs i
    exact ⟨h1, h2⟩
  · rw [hget 0 (by omega)]
    rfl
  · intro i r r2 hr hr2
    obtain ⟨hi, rfl⟩ := hsome i r hr
    obtain ⟨hi2, rfl⟩ := hsome (i + 1) r2 hr2
    rw [date_raw_generateRow, date_raw_generateRow, Function.iterate_succ_apply']
  · intro d hvd hd1 hd2
    refine ⟨rataDie d - rataDie cfg.start_date, _, hget _ (by omega), ?_, ?_⟩
    · rw [date_raw_generateRow]
      obtain ⟨h1, h2⟩ := iterate_nextDate hvs (rataDie d - rataDie cfg.start_date)
      exact rataDie_inj h1 hvd (by omega)
    · intro j rj hrj hdj
      obtain ⟨hj, rfl⟩ := hsome j rj hrj
      rw [date_raw_generateRow] at hdj
      obtain ⟨h1, h2⟩ := iterate_nextDate hvs j
      rw [hdj] at h2
      omega

/-- C3 witness: the five days from 0004-12-29 to 0005-01-02. -/
theorem claim3_witness :
    (DateDimensionGenerator.generate demoConfig).rows.length = 5 ∧
    ((DateDimensionGenerator.generate demoConfig).rows[0]?.map Row.date_raw =
      some ⟨4, 12, 29⟩) := by
  have h := claim3_generate_range demoConfig (by decide) (by decide) (by decide)
  refine ⟨?_, h.2.2.1⟩
  rw [h.1]
  decide

theorem ofDigits_decDigitsAux (fuel : Nat) :
    ∀ n, n ≤ fuel → Nat.ofDigits 10 (decDigitsAux fuel n) = n := by
  induction fuel with
  | zero =>
    intro n hn
    have : n = 0 := by omega
    subst this
    simp [decDigitsAux, Nat.ofDigits_nil]
  | succ fuel ih =>
    intro n hn
    cases n with
    | zero => simp [decDigitsAux, Nat.ofDigits_nil]
    | succ n =>
      rw [decDigitsAux, Nat.ofDigits_cons, ih ((n + 1) / 10) (by omega)]
      omega

theorem ofDigits_decDigits (n : Nat) : Nat.ofDigits 10 (decDigits n) = n :=
  ofDigits_decDigitsAux n n (Nat.le_refl n)

/-- The `%Y%m%d` integer of a date is `y * 10000 + m * 100 + d`. -/
theorem fieldsToInt_ymd (y m d : Nat) :
    fieldsToInt [d % 10, d / 10, m % 10, m / 10] y = y * 10000 + m * 100 + d := by
  unfold fieldsToInt
  rw [List.cons_append, List.cons_append, List.cons_append, List.cons_append,
    List.nil_append, Nat.ofDigits_cons, Nat.ofDigits_cons, Nat.ofDigits_cons,
    Nat.ofDigits_cons, ofDigits_decDigits]
  omega

/-- The `%Y%m` integer of a date is `y * 100 + m`. -/
theorem fieldsToInt_ym (y m : Nat) :
    fieldsToInt [m % 10, m / 10] y = y * 100 + m := by
  unfold fieldsToInt
  rw [List.cons_append, List.cons_append, List.nil_append,
    Nat.ofDigits_cons, Nat.ofDigits_cons, ofDigits_decDigits]
  omega

/-- C5: in every generated row, `datekey` is the `YYYYMMDD` integer
`year * 10000 + month * 100 + day` of the row's date, and `yearmonthnum`
is `year * 100 + month`. -/
theorem claim5_numeric_keys (cfg : Config) :
    ∀ r ∈ (DateDimensionGenerator.generate cfg).rows,
      r.datekey =
        r.date_raw.year * 10000 + r.date_raw.month * 100 + r.date_raw.day ∧
      r.yearmonthnum = r.date_raw.year * 100 + r.date_raw.month := by
  intro r hr
  rw [generate_rows_eq cfg] at hr
  rcases List.mem_map.mp hr with ⟨d, hd, rfl⟩
  constructor
  · rw [date_raw_generateRow]
    exact fieldsToInt_ymd d.year d.month d.day
  · rw [date_raw_generateRow]
    exact fieldsToInt_ym d.year d.month

/-- C5 witness: the row of 0005-01-02. -/
theorem claim5_witness :
    ∃ r ∈ (DateDimensionGenerator.generate demoConfig).rows,
      r.date_raw = ⟨5, 1, 2⟩ ∧ r.datekey = 50102 ∧ r.yearmonthnum = 501 := by
  have hmem : generateRow demoConfig.hols ⟨5, 1, 2⟩ ∈
      (DateDimensionGenerator.generate demoConfig).rows := by
    rw [generate_rows_eq demoConfig]
    exact List.mem_map.mpr ⟨⟨5, 1, 2⟩, by decide, rfl⟩
  have h := claim5_numeric_keys demoConfig _ hmem
  exact ⟨_, hmem, rfl, by rw [h.1]; rfl, by rw [h.2]; rfl⟩

theorem dateList_mem {s d : Date} {n : Nat} (h : d ∈ dateList s n) :
    ∃ i, i < n ∧ d = nextDate^[i] s := by
  induction n generalizing s with
  | zero => simp [dateList] at h
  | succ n ih =>
    rw [dateList] at h
    rcases List.mem_cons.mp h with rfl | h2
    · exact ⟨0, by omega, rfl⟩
    · rcases ih h2 with ⟨i, hi, rfl⟩
      exact ⟨i + 1, by omega, by rw [Function.iterate_succ_apply]⟩

theorem mem_dateRange_valid {s e d : Date} (hvs : s.Valid)
    (h : d ∈ dateRange s e) : d.Valid := by
  unfold dateRange at h
  rcases dateList_mem h with ⟨i, _, rfl⟩
  exact (iterate_nextDate hvs i).1

theorem isoWeekday_bounds (d : Date) : 1 ≤ isoWeekday d ∧ isoWeekday d ≤ 7 := by
  unfold isoWeekday
  omega

theorem weekdayName_eq_sunday {w : Nat} (h1 : 1 ≤ w) (h7 : w ≤ 7) :
    weekdayName w = "Sunday" ↔ w = 7 := by
  interval_cases w <;> decide

/-- On valid dates being the month's last day is the same as the calendar
successor leaving the month (or the year). -/
theorem lastDay_nextDate {d : Date} (hv : d.Valid) :
    d.day = daysInMonth d.year d.month ↔
      ((nextDate d).month ≠ d.month ∨ (nextDate d).year ≠ d.year) := by
  obtain ⟨hy, hm1, hm2, hd1, hd2⟩ := hv
  unfold nextDate
  split
  · rename_i h
    simp only [ne_eq]
    constructor
    · intro he; omega
    · intro hor
      rcases hor with h2 | h2 <;> simp at h2
  · rename_i h
    split
    · simp only [ne_eq]
      constructor
      · intro _
        left
        omega
      · intro _; omega
    · simp only [ne_eq]
      constructor
      · intro _
        right
        omega
      · intro _; omega

/-- A date equals its month end exactly when its day is the last of the
month. -/
theorem eq_monthEnd_iff (d : Date) :
    d = monthEnd d ↔ d.day = daysInMonth d.year d.month := by
  unfold monthEnd
  constructor
  · intro h
    exact congrArg Date.day h
  · intro h
    cases d
    simp_all

/-- C6: in every generated row, `is_last_day_in_week` is `True` iff the
date's ISO weekday is 7 (i.e. the `dayofweek` column reads `Sunday`), and
`is_last_day_in_month` is `True` iff the date is the last calendar day of
its month (equivalently, the next calendar day leaves the month or the
year). -/
theorem claim6_last_day_flags (cfg : Config) (hvs : cfg.start_date.Valid) :
    ∀ r ∈ (DateDimensionGenerator.generate cfg).rows,
      (r.is_last_day_in_week = true ↔ isoWeekday r.date_raw = 7) ∧
      (r.is_last_day_in_week = true ↔ r.dayofweek = "Sunday") ∧
      (r.is_last_day_in_month = true ↔
        r.date_raw.day = daysInMonth r.date_raw.year r.date_raw.month) ∧
      (r.is_last_day_in_month = true ↔
        ((nextDate r.date_raw).month ≠ r.date_raw.month ∨
          (nextDate r.date_raw).year ≠ r.date_raw.year)) := by
  intro r hr
  rw [generate_rows_eq cfg] at hr
  rcases List.mem_map.mp hr with ⟨d, hd, rfl⟩
  have hvd : d.Valid := mem_dateRange_valid hvs hd
  have e1 : (generateRow cfg.hols d).is_last_day_in_week =
      decide (isoWeekday d = 7) := rfl
  have e2 : (generateRow cfg.hols d).dayofweek = weekdayName (isoWeekday d) := rfl
  have e3 : (generateRow cfg.hols d).is_last_day_in_month =
      decide (d = monthEnd d) := rfl
  rw [date_raw_generateRow, e1, e2, e3]
  obtain ⟨hwb1, hwb2⟩ := isoWeekday_bounds d
  have hmonth : (d = monthEnd d) ↔ d.day = daysInMonth d.year d.month :=
    eq_monthEnd_iff d
  refine ⟨by simp, ?_, by simp [hmonth], ?_⟩
  · rw [weekdayName_eq_sunday hwb1 hwb2]
    simp
  · rw [← lastDay_nextDate hvd]
    simp [hmonth]

/-- C6 witness: 0004-12-31 (the 3rd row of the demo range) is a Friday and
the last day of its month. -/
theorem claim6_witness :
    ∃ r ∈ (DateDimensionGenerator.generate demoConfig).rows,
      r.date_raw = ⟨4, 12, 31⟩ ∧ r.is_last_day_in_month = true ∧
      r.is_last_day_in_week = false := by
  have hmem : generateRow demoConfig.hols ⟨4, 12, 31⟩ ∈
      (DateDimensionGenerator.generate demoConfig).rows := by
    rw [generate_rows_eq demoConfig]
    exact List.mem_map.mpr ⟨⟨4, 12, 31⟩, by decide, rfl⟩
  have h := claim6_last_day_flags demoConfig (by decide) _ hmem
  refine ⟨_, hmem, rfl, ?_, ?_⟩
  · exact h.2.2.1.mpr (by decide)
  · have hw : isoWeekday (⟨4, 12, 31⟩ : Date) = 5 := by decide
    have := h.1
    rw [date_raw_generateRow, hw] at this
    rcases hfl : (generateRow demoConfig.hols ⟨4, 12, 31⟩).is_last_day_in_week with _ | _
    · rfl
    · exact absurd (this.mp hfl) (by omega)

/-- C7: in every generated row, `iso_year`/`iso_weeknuminyear` are the
ISO-8601 year and week of the row's date: the week number is at least 1,
the date lies in the Monday-aligned 7-day block `iso_weeknuminyear` weeks
after the week-1 Monday of ISO year `iso_year`, and that anchor is a
Monday whose week contains January 4 of `iso_year` (the ISO definition of
week 1).  Moreover, near year boundaries `iso_year` can differ from the
`year` column: in the demo range an early-January date has the previous
year as its `iso_year`. -/
theorem claim7_iso_fields :
    (∀ (cfg : Config), cfg.start_date.Valid →
      ∀ r ∈ (DateDimensionGenerator.generate cfg).rows,
        r.iso_year = (isoCalendar r.date_raw).1 ∧
        r.iso_weeknuminyear = (isoCalendar r.date_raw).2 ∧
        1 ≤ r.iso_weeknuminyear ∧
        (week1Monday r.iso_year - 1) % 7 = 0 ∧
        week1Monday r.iso_year + 7 * (r.iso_weeknuminyear - 1) ≤ rataDie r.date_raw ∧
        rataDie r.date_raw <
          week1Monday r.iso_year + 7 * (r.iso_weeknuminyear - 1) + 7 ∧
        week1Monday r.iso_year ≤ rataDie ⟨r.iso_year, 1, 4⟩ ∧
        rataDie ⟨r.iso_year, 1, 4⟩ < week1Monday r.iso_year + 7) ∧
    (∃ r ∈ (DateDimensionGenerator.generate demoConfig).rows,
      r.date_raw.month = 1 ∧ r.year = r.date_raw.year ∧
      r.iso_year = r.year - 1 ∧ r.iso_year ≠ r.year) := by
  constructor
  · intro cfg hvs r hr
    rw [generate_rows_eq cfg] at hr
    rcases List.mem_map.mp hr with ⟨d, hd, rfl⟩
    have hvd : d.Valid := mem_dateRange_valid hvs hd
    have e1 : (generateRow cfg.hols d).iso_year = (isoCalendar d).1 := rfl
    have e2 : (generateRow cfg.hols d).iso_weeknuminyear = (isoCalendar d).2 := rfl
    rw [date_raw_generateRow, e1, e2]
    obtain ⟨hy1, hw1, hmem1, hmem2⟩ := isoCalendar_mem hvd
    obtain ⟨hmon, _, _, _⟩ := week1Monday_facts (isoCalendar d).1
    obtain ⟨hj1, hj2⟩ := week1Monday_jan4 (isoCalendar d).1
    exact ⟨rfl, rfl, hw1, hmon, hmem1, hmem2, hj1, hj2⟩
  · refine ⟨generateRow demoConfig.hols ⟨5, 1, 1⟩, ?_, ?_, ?_, ?_, ?_⟩
    · rw [generate_rows_eq demoConfig]
      exact List.mem_map.mpr ⟨⟨5, 1, 1⟩, by decide, rfl⟩
    · rfl
    · rfl
    · decide
    · decide

/-- C7 witness: the first demo row (0004-12-29) lies in ISO week 53 of ISO
year 4. -/
theorem claim7_witness :
    ∃ r ∈ (DateDimensionGenerator.generate demoConfig).rows,
      r.iso_year = 4 ∧ r.iso_weeknuminyear = 53 ∧
      week1Monday r.iso_year + 7 * (r.iso_weeknuminyear - 1) ≤ rataDie r.date_raw ∧
      rataDie r.date_raw <
        week1Monday r.iso_year + 7 * (r.iso_weeknuminyear - 1) + 7 := by
  have hmem : generateRow demoConfig.hols ⟨4, 12, 29⟩ ∈
      (DateDimensionGenerator.generate demoConfig).rows := by
    rw [generate_rows_eq demoConfig]
    exact List.mem_map.mpr ⟨⟨4, 12, 29⟩, by decide, rfl⟩
  have h := claim7_iso_fields.1 demoConfig (by decide) _ hmem
  refine ⟨_, hmem, ?_, ?_, h.2.2.2.2.1, h.2.2.2.2.2.1⟩
  · decide
  · decide

/-! ### Statefulness (C4) -/

/-- C4: in the packaged module a freshly constructed registry is empty
(first conjunct; `__init__` sets `self.holidays = {}`).  In the legacy
script `src/generate.py`, however, `holidays = []` is a class attribute:
one list shared by every instance, which the constructor never rebinds.
The remaining conjuncts evaluate that model at the failing input: after a
first instance registers the code `US`, the shared class list — which a
freshly constructed second instance reads as `self.holidays` — is
non-empty, and the second instance's `is_holiday(0004-07-04)` already
returns `True`, although the claim requires a fresh registry to be empty
and unaffected by other instances.  (The legacy class has no `is_empty`
method at all.) -/
theorem claim4_legacy_class_attribute :
    Holidays.init.is_empty = true ∧
    (Legacy.country_holidays Legacy.classHolidays demoProvider ["US"]).2 = none ∧
    (Legacy.country_holidays Legacy.classHolidays demoProvider ["US"]).1.length = 1 ∧
    Legacy.is_holiday (Legacy.country_holidays Legacy.classHolidays demoProvider ["US"]).1
      ⟨4, 7, 4⟩ = true :=
  ⟨rfl, rfl, rfl, rfl⟩

/-! ### Argument-processing theorems -/

/-- With both dates parsed, start not after end, and no holiday codes,
`__process_arguments` reaches the output-format match with an otherwise
fixed configuration. -/
theorem process_core {ss es : String} {sd ed : Date}
    (P F : String → Option HolidayCalendar) (names : Bool) (fmt : Option String)
    (hss : parseDate ss = some sd) (hes : parseDate es = some ed)
    (hlt : ¬ DateLt ed sd) :
    processArguments (some ss) (some es) P F [] [] names fmt =
      (if lowerString (fmt.getD "parquet") = "csv" then
        Except.ok ⟨sd, ed, ⟨[]⟩, false, "csv"⟩
      else if lowerString (fmt.getD "parquet") = "parquet" then
        Except.ok ⟨sd, ed, ⟨[]⟩, false, "parquet"⟩
      else Except.error ArgError.outFormat) := by
  unfold processArguments
  dsimp only
  rw [hss, hes]
  dsimp only
  rw [if_neg hlt]
  dsimp only [registerCalendars]
  cases names <;> rfl

/-- C8: argument processing returns `Err` (it never raises: caught
`ValueError`s become `Err`) when the start or end date is missing, when
either date string does not parse as `YYYY-MM-DD`, or when the start date
is after the end date; and with both dates valid and in order it succeeds
on the dates. -/
theorem claim8_validation :
    (∀ (es : Option String) (P F : String → Option HolidayCalendar)
        (c f : List String) (n : Bool) (o : Option String),
      processArguments none es P F c f n o = .error .missingDates) ∧
    (∀ (ss : String) (P F : String → Option HolidayCalendar)
        (c f : List String) (n : Bool) (o : Option String),
      processArguments (some ss) none P F c f n o = .error .missingDates) ∧
    (∀ (ss es : String) (P F : String → Option HolidayCalendar)
        (c f : List String) (n : Bool) (o : Option String),
      parseDate ss = none →
      processArguments (some ss) (some es) P F c f n o = .error .dateParse) ∧
    (∀ (ss es : String) (P F : String → Option HolidayCalendar)
        (c f : List String) (n : Bool) (o : Option String),
      parseDate es = none →
      processArguments (some ss) (some es) P F c f n o = .error .dateParse) ∧
    (∀ (ss es : String) (sd ed : Date) (P F : String → Option HolidayCalendar)
        (c f : List String) (n : Bool) (o : Option String),
      parseDate ss = some sd → parseDate es = some ed → DateLt ed sd →
      processArguments (some ss) (some es) P F c f n o = .error .startAfterEnd) ∧
    (∀ (ss es : String) (sd ed : Date) (P F : String → Option HolidayCalendar),
      parseDate ss = some sd → parseDate es = some ed → ¬ DateLt ed sd →
      ∃ cfg, processArguments (some ss) (some es) P F [] [] false none = .ok cfg ∧
        cfg.start_date = sd ∧ cfg.end_date = ed) := by
  refine ⟨fun es P F c f n o => by cases es <;> rfl,
    fun ss P F c f n o => rfl, ?_, ?_, ?_, ?_⟩
  · intro ss es P F c f n o h
    unfold processArguments
    dsimp only
    rw [h]
    cases hpe : parseDate es <;> rfl
  · intro ss es P F c f n o h
    unfold processArguments
    dsimp only
    rcases hps : parseDate ss with _ | s2 <;> rw [h]
  · intro ss es sd ed P F c f n o hss hes hlt
    unfold processArguments
    dsimp only
    rw [hss, hes]
    dsimp only
    rw [if_pos hlt]
  · intro ss es sd ed P F hss hes hlt
    rw [process_core P F false none hss hes hlt]
    refine ⟨⟨sd, ed, ⟨[]⟩, false, "parquet"⟩, ?_, rfl, rfl⟩
    rw [if_neg (by decide), if_pos (by decide)]

/-- C8 witness: a missing date, a non-parsing date, a reversed range, and
an accepted range. -/
theorem claim8_witness :
    processArguments none (some "0005-01-02") demoProvider demoProvider
      [] [] false none = .error .missingDates ∧
    processArguments (some "2024-13-01") (some "0005-01-02") demoProvider
      demoProvider [] [] false none = .error .dateParse ∧
    processArguments (some "0005-01-02") (some "0004-12-29") demoProvider
      demoProvider [] [] false none = .error .startAfterEnd ∧
    ∃ cfg,
      processArguments (some "0004-12-29") (some "0005-01-02") demoProvider
        demoProvider [] [] false none = .ok cfg ∧
      cfg.start_date = ⟨4, 12, 29⟩ ∧ cfg.end_date = ⟨5, 1, 2⟩ := by
  refine ⟨claim8_validation.1 _ _ _ _ _ _ _,
    claim8_validation.2.2.1 _ _ _ _ _ _ _ _ (by decide),
    claim8_validation.2.2.2.2.1 _ _ ⟨5, 1, 2⟩ ⟨4, 12, 29⟩ _ _ _ _ _ _
      (by decide) (by decide) (by decide),
    claim8_validation.2.2.2.2.2 _ _ ⟨4, 12, 29⟩ ⟨5, 1, 2⟩ _ _
      (by decide) (by decide) (by decide)⟩

/-- C9: the sink supports exactly two formats.  Argument processing (with
valid dates) defaults a missing `out_format` to `parquet`, accepts any
string lowercasing to `csv` or `parquet`, and returns `Err` for every
other value; `DataFrame.output` writes `datedimension.csv` for `csv` and
`datedimension.parquet` for `parquet`. -/
theorem claim9_output_formats :
    (∀ (ss es : String) (sd ed : Date) (P F : String → Option HolidayCalendar),
      parseDate ss = some sd → parseDate es = some ed → ¬ DateLt ed sd →
      (processArguments (some ss) (some es) P F [] [] false none =
        .ok ⟨sd, ed, ⟨[]⟩, false, "parquet"⟩) ∧
      (∀ f : String, lowerString f = "csv" →
        processArguments (some ss) (some es) P F [] [] false (some f) =
          .ok ⟨sd, ed, ⟨[]⟩, false, "csv"⟩) ∧
      (∀ f : String, lowerString f = "parquet" →
        processArguments (some ss) (some es) P F [] [] false (some f) =
          .ok ⟨sd, ed, ⟨[]⟩, false, "parquet"⟩) ∧
      (∀ f : String, lowerString f ≠ "csv" → lowerString f ≠ "parquet" →
        processArguments (some ss) (some es) P F [] [] false (some f) =
          .error .outFormat)) ∧
    (∀ df : DataFrame, df.output "csv" = some (.csv, "datedimension.csv")) ∧
    (∀ df : DataFrame,
      df.output "parquet" = some (.parquet, "datedimension.parquet")) := by
  refine ⟨?_, fun df => rfl, fun df => rfl⟩
  intro ss es sd ed P F hss hes hlt
  refine ⟨?_, ?_, ?_, ?_⟩
  · rw [process_core P F false none hss hes hlt]
    rw [if_neg (by decide), if_pos (by decide)]
  · intro f hf
    rw [process_core P F false (some f) hss hes hlt]
    simp only [Option.getD_some]
    rw [if_pos hf]
  · intro f hf
    rw [process_core P F false (some f) hss hes hlt]
    simp only [Option.getD_some]
    rw [if_neg (by rw [hf]; decide), if_pos hf]
  · intro f hf1 hf2
    rw [process_core P F false (some f) hss hes hlt]
    simp only [Option.getD_some]
    rw [if_neg hf1, if_neg hf2]

/-- C9 witness: `CSV` (uppercase) is accepted as csv, `json` is rejected,
and the two sink outputs. -/
theorem claim9_witness :
    processArguments (some "0004-12-29") (some "0005-01-02") demoProvider
      demoProvider [] [] false (some "CSV") =
      .ok ⟨⟨4, 12, 29⟩, ⟨5, 1, 2⟩, ⟨[]⟩, false, "csv"⟩ ∧
    processArguments (some "0004-12-29") (some "0005-01-02") demoProvider
      demoProvider [] [] false (some "json") = .error .outFormat ∧
    DataFrame.output ⟨[], []⟩ "csv" = some (.csv, "datedimension.csv") := by
  have h := claim9_output_formats.1 "0004-12-29" "0005-01-02" ⟨4, 12, 29⟩
    ⟨5, 1, 2⟩ demoProvider demoProvider (by decide) (by decide) (by decide)
  exact ⟨h.2.1 "CSV" (by decide), h.2.2.2 "json" (by decide) (by decide),
    claim9_output_formats.2.1 ⟨[], []⟩⟩
